import Mathlib

/-
Verification of the gluify pipeline library core (Gluify.ts).

Modelling conventions:
* The erased internal value type (`unknown` in the source) is a type
  parameter `V`; thrown values are a type parameter `E`.
* A caller-supplied function that may throw is modelled as a function
  into `Except E _`: `Except.ok` is a normal return, `Except.error` a
  thrown value.
* The source tags error-handler operations with a marker property
  (`__isErrorHandler` / `__handler`); here a step is an explicit tagged
  variant `Op` with a `transform` and an `errorHandler` case, as the
  design notes of the library recommend.
* Variadic extra arguments of `pipe`/`gluify` are pre-bound (curried)
  into the stored function, which is semantically transparent.
-/

/-- A step descriptor: either a transform wrapping a value-to-value
function, or an error handler wrapping an error-to-recovery function
(the `__handler` of the marker operation in the source). -/
inductive Op (V E : Type) where
  | transform (f : V → Except E V)
  | errorHandler (h : E → Except E V)

/-- Mirrors the `isErrorHandler` type guard of the source. -/
def Op.isErrorHandlerB {V E : Type} : Op V E → Bool
  | .transform _ => false
  | .errorHandler _ => true

/-- The Gluify pipeline: an initial value, an ordered operation list, a
laziness flag and an optional lazy seed producer, exactly the four
fields of the `Gluify` class constructor. -/
structure Gluify (V E : Type) where
  initialValue : V
  operations : List (Op V E)
  isLazy : Bool
  lazyInitializer : Option (Unit → Except E V)

/-- Mirrors `createNext`: a new Gluify with the same seed fields and the
given operation list. -/
def Gluify.createNext {V E : Type} (g : Gluify V E) (newOperations : List (Op V E)) :
    Gluify V E :=
  ⟨g.initialValue, newOperations, g.isLazy, g.lazyInitializer⟩

/-- Mirrors `pipe`: store the operation, do not execute. -/
def Gluify.pipe {V E : Type} (g : Gluify V E) (fn : V → Except E V) : Gluify V E :=
  g.createNext (g.operations ++ [Op.transform fn])

/-- The operation stored by `tap`: call `fn` on the value (its result of
arbitrary type `W` is discarded), return the unchanged value; a throw
inside `fn` propagates. -/
def tapOp {V E W : Type} (fn : V → Except E W) : V → Except E V := fun v =>
  match fn v with
  | Except.ok _ => Except.ok v
  | Except.error e => Except.error e

/-- Mirrors `tap`: store a tap operation without changing the value. -/
def Gluify.tap {V E W : Type} (g : Gluify V E) (fn : V → Except E W) : Gluify V E :=
  g.createNext (g.operations ++ [Op.transform (tapOp fn)])

/-- Mirrors `catch` (named `catchError` because `catch` is reserved in
Lean): appends an error-handler step carrying `handler`. -/
def Gluify.catchError {V E : Type} (g : Gluify V E) (handler : E → Except E V) :
    Gluify V E :=
  g.createNext (g.operations ++ [Op.errorHandler handler])

/-- Mirrors `recover`: `catch` with a constant fallback value. -/
def Gluify.recover {V E : Type} (g : Gluify V E) (fallbackValue : V) : Gluify V E :=
  g.catchError (fun _ => Except.ok fallbackValue)

/-- The operation stored by `when`: if the predicate's result is truthy
run `fn`, else pass the value through; predicate given as a Bool-valued
function that may itself throw. -/
def whenOp {V E : Type} (predicate : V → Except E Bool) (fn : V → Except E V) :
    V → Except E V := fun v =>
  match predicate v with
  | Except.ok true => fn v
  | Except.ok false => Except.ok v
  | Except.error e => Except.error e

/-- Mirrors `when`: conditional execution. -/
def Gluify.when {V E : Type} (g : Gluify V E) (predicate : V → Except E Bool)
    (fn : V → Except E V) : Gluify V E :=
  g.createNext (g.operations ++ [Op.transform (whenOp predicate fn)])

/-- The starting value of an execution, mirroring
`this.isLazy && this.lazyInitializer ? this.lazyInitializer() : this.initialValue`
wrapped in the surrounding try/catch. -/
def seedResult {V E : Type} (g : Gluify V E) : Except E V :=
  if g.isLazy then
    match g.lazyInitializer with
    | some f => f ()
    | none => Except.ok g.initialValue
  else Except.ok g.initialValue

/-- The operation-walking loop of `run`. The state is `Except.ok v`
(no pending error, current value `v`) or `Except.error e` (error state):
in the ok state error handlers are skipped and transforms applied (a
throw enters the error state); in the error state transforms are
skipped and the handler of an error-handler step is invoked (success
clears the error, a throw replaces it). -/
def runOps {V E : Type} : List (Op V E) → Except E V → Except E V
  | [], st => st
  | Op.transform f :: rest, Except.ok v => runOps rest (f v)
  | Op.errorHandler _ :: rest, Except.ok v => runOps rest (Except.ok v)
  | Op.transform _ :: rest, Except.error e => runOps rest (Except.error e)
  | Op.errorHandler h :: rest, Except.error e => runOps rest (h e)

/-- Mirrors `run`: walk the operations from the seed; a final error
state is thrown to the caller, otherwise the final value is returned. -/
def Gluify.run {V E : Type} (g : Gluify V E) : Except E V :=
  runOps g.operations (seedResult g)

/-- Mirrors the global `gluify` helper: a lazy pipeline whose
initializer is the given producer (extra arguments pre-bound); the
`initialValue` field is the unconsulted `undefined` placeholder. -/
def gluify {V E : Type} [Inhabited V] (f : Unit → Except E V) : Gluify V E :=
  ⟨default, [], true, some f⟩

/-- Instrumented variant of the `run` loop: additionally returns the
list of indices (counting from `i`) of the steps whose wrapped
caller-supplied function was actually invoked during the walk. -/
def runOpsTr {V E : Type} : List (Op V E) → Except E V → Nat → Except E V × List Nat
  | [], st, _ => (st, [])
  | Op.transform f :: rest, Except.ok v, i =>
      let p := runOpsTr rest (f v) (i + 1)
      (p.1, i :: p.2)
  | Op.errorHandler _ :: rest, Except.ok v, i => runOpsTr rest (Except.ok v) (i + 1)
  | Op.transform _ :: rest, Except.error e, i => runOpsTr rest (Except.error e) (i + 1)
  | Op.errorHandler h :: rest, Except.error e, i =>
      let p := runOpsTr rest (h e) (i + 1)
      (p.1, i :: p.2)

/-- Result and invocation trace of an execution of a pipeline. -/
def Gluify.runTrace {V E : Type} (g : Gluify V E) : Except E V × List Nat :=
  runOpsTr g.operations (seedResult g) 0

/-- Whether a walk of the given operations starting from the given value
stays error-free throughout (transform steps all succeed; error-handler
steps are skipped, as the executor does in the ok state). -/
def runsClean {V E : Type} : List (Op V E) → V → Bool
  | [], _ => true
  | Op.transform f :: rest, v =>
      match f v with
      | Except.ok w => runsClean rest w
      | Except.error _ => false
  | Op.errorHandler _ :: rest, v => runsClean rest v

/-- A pipeline with all error-handler steps removed. -/
def Gluify.withoutHandlers {V E : Type} (g : Gluify V E) : Gluify V E :=
  ⟨g.initialValue, g.operations.filter (fun op => ! op.isErrorHandlerB),
    g.isLazy, g.lazyInitializer⟩

/-- Appends each function of the list, in order, as a `pipe` step. -/
def pipeList {V E : Type} (g : Gluify V E) (fs : List (V → Except E V)) : Gluify V E :=
  fs.foldl Gluify.pipe g

/-- A value in the asynchronous world: either a plain value or a
deferred (promise) value that settles to a value or a rejection. The
`value instanceof Promise` check of the source distinguishes the two
cases. -/
inductive JVal (E α : Type) where
  | v (a : α)
  | prom (r : Except E α)

/-- Awaiting a possibly deferred value: a plain value is returned as
is, a promise settles to its value or throws its rejection. -/
def awaitJ {E α : Type} : JVal E α → Except E α
  | .v a => Except.ok a
  | .prom r => r

/-- The operation stored by `pipeAsync`: resolve the incoming value if
it is a promise, then apply `fn` to the resolved value (a rejection
while resolving, or a throw in `fn`, rejects the operation's result). -/
def pipeAsyncOp {E α : Type} (fn : α → Except E (JVal E α)) :
    JVal E α → Except E (JVal E α) := fun value =>
  (awaitJ value).bind fn

/-- Mirrors `pipeAsync`: store the input-resolving operation. -/
def Gluify.pipeAsync {E α : Type} (g : Gluify (JVal E α) E)
    (fn : α → Except E (JVal E α)) : Gluify (JVal E α) E :=
  g.createNext (g.operations ++ [Op.transform (pipeAsyncOp fn)])

/-- A plain `pipe` step storing a function `fn` that expects a resolved
input, as in the source's `pipe(fn)` used in an async chain: on a plain
value it applies `fn`; what it does on a promise input is the
unconstrained behavior `onProm` of applying `fn` to a raw promise
object. -/
def plainOpOf {E α : Type} (fn : α → Except E (JVal E α))
    (onProm : Except E α → Except E (JVal E α)) : JVal E α → Except E (JVal E α)
  | JVal.v a => fn a
  | JVal.prom p => onProm p

/-- The operation-walking loop of `runAsync`. The loop state is the
outcome of `await`ing the previous step's result (`result` is
overwritten with `await op(result)`), so after every executed step the
stored value is resolved and rewrapped as a plain `JVal.v`. -/
def runAsyncOps {E α : Type} :
    List (Op (JVal E α) E) → Except E (JVal E α) → Except E (JVal E α)
  | [], st => st
  | Op.transform f :: rest, Except.ok jv =>
      runAsyncOps rest (((f jv).bind awaitJ).map JVal.v)
  | Op.errorHandler _ :: rest, Except.ok jv => runAsyncOps rest (Except.ok jv)
  | Op.transform _ :: rest, Except.error e => runAsyncOps rest (Except.error e)
  | Op.errorHandler h :: rest, Except.error e =>
      runAsyncOps rest (((h e).bind awaitJ).map JVal.v)

/-- The starting state of `runAsync`: the lazy producer's result is
awaited (`await this.lazyInitializer()`); a non-lazy initial value is
taken as is, unawaited. -/
def asyncSeed {E α : Type} (g : Gluify (JVal E α) E) : Except E (JVal E α) :=
  if g.isLazy then
    match g.lazyInitializer with
    | some f => ((f ()).bind awaitJ).map JVal.v
    | none => Except.ok g.initialValue
  else Except.ok g.initialValue

/-- Mirrors `runAsync`: walk the operations from the awaited seed; a
final error state rejects, and the returned value is awaited by the
caller of the async entry point (promise flattening), hence the final
`awaitJ`. -/
def Gluify.runAsync {E α : Type} (g : Gluify (JVal E α) E) : Except E α :=
  (runAsyncOps g.operations (asyncSeed g)).bind awaitJ

/-- An async executor state is resolved when any value it holds is a
plain (non-promise) value. -/
def ResolvedSt {E α : Type} (st : Except E (JVal E α)) : Prop :=
  ∀ jv, st = Except.ok jv → ∃ a, jv = JVal.v a

/-- A JavaScript runtime value, used to give the convenience-transform
catalog a concrete erased value domain (numbers modelled as integers;
nothing in the claims depends on float arithmetic). The thrown-value
type of catalog operations is `JSV` itself, since JS throws values. -/
inductive JSV where
  | num (n : Int)
  | str (s : String)
  | bool (b : Bool)
  | null
  | undef
  | arr (xs : List JSV)
  | obj (fields : List (String × JSV))

mutual

def jsvBeq : JSV → JSV → Bool
  | JSV.num a, JSV.num b => a == b
  | JSV.str a, JSV.str b => a == b
  | JSV.bool a, JSV.bool b => a == b
  | JSV.null, JSV.null => true
  | JSV.undef, JSV.undef => true
  | JSV.arr xs, JSV.arr ys => jsvBeqList xs ys
  | JSV.obj fs, JSV.obj gs => jsvBeqFields fs gs
  | _, _ => false

def jsvBeqList : List JSV → List JSV → Bool
  | [], [] => true
  | x :: xs, y :: ys => jsvBeq x y && jsvBeqList xs ys
  | _, _ => false

def jsvBeqFields : List (String × JSV) → List (String × JSV) → Bool
  | [], [] => true
  | (k1, v1) :: ps, (k2, v2) :: qs => k1 == k2 && jsvBeq v1 v2 && jsvBeqFields ps qs
  | _, _ => false

end

instance : BEq JSV := ⟨jsvBeq⟩

/-- JS truthiness of a value. -/
def JSV.truthy : JSV → Bool
  | .num n => n != 0
  | .str s => s != ""
  | .bool b => b
  | .null => false
  | .undef => false
  | .arr _ => true
  | .obj _ => true

/-- The value thrown when a native method is accessed on a value of the
wrong shape (elided to a tag, nothing depends on its contents). -/
def typeError : JSV := JSV.str "TypeError"

/-- The `arr as unknown[]` cast followed by an array-method access:
succeeds on arrays, throws a TypeError otherwise. -/
def asArr : JSV → Except JSV (List JSV)
  | .arr xs => Except.ok xs
  | _ => Except.error typeError

/-- The `obj as Record` cast followed by key access. -/
def asObj : JSV → Except JSV (List (String × JSV))
  | .obj fs => Except.ok fs
  | _ => Except.error typeError

/-- The `str as string` cast followed by a string-method access. -/
def asStr : JSV → Except JSV String
  | .str s => Except.ok s
  | _ => Except.error typeError

/-- `Array.prototype.map` with a possibly throwing callback receiving
item and index. -/
def mapWithIndex (fn : JSV → Nat → Except JSV JSV) :
    List JSV → Nat → Except JSV (List JSV)
  | [], _ => Except.ok []
  | x :: xs, i => do
      let y ← fn x i
      let ys ← mapWithIndex fn xs (i + 1)
      Except.ok (y :: ys)

/-- `Array.prototype.filter`: keeps the items on which the predicate's
result is truthy. -/
def filterWithIndex (predicate : JSV → Nat → Except JSV JSV) :
    List JSV → Nat → Except JSV (List JSV)
  | [], _ => Except.ok []
  | x :: xs, i => do
      let t ← predicate x i
      let ys ← filterWithIndex predicate xs (i + 1)
      Except.ok (if t.truthy then x :: ys else ys)

/-- `Array.prototype.reduce` with an explicit initial accumulator (the
source always passes one). -/
def reduceWithIndex (fn : JSV → JSV → Nat → Except JSV JSV) :
    JSV → List JSV → Nat → Except JSV JSV
  | acc, [], _ => Except.ok acc
  | acc, x :: xs, i => do
      let acc2 ← fn acc x i
      reduceWithIndex fn acc2 xs (i + 1)

/-- `Array.prototype.find`: first item with a truthy predicate result,
`undefined` when none. -/
def findWithIndex (predicate : JSV → Nat → Except JSV JSV) :
    List JSV → Nat → Except JSV JSV
  | [], _ => Except.ok JSV.undef
  | x :: xs, i => do
      let t ← predicate x i
      if t.truthy then Except.ok x else findWithIndex predicate xs (i + 1)

/-- `Array.prototype.some`. -/
def someWithIndex (predicate : JSV → Nat → Except JSV JSV) :
    List JSV → Nat → Except JSV Bool
  | [], _ => Except.ok false
  | x :: xs, i => do
      let t ← predicate x i
      if t.truthy then Except.ok true else someWithIndex predicate xs (i + 1)

/-- `Array.prototype.every`. -/
def everyWithIndex (predicate : JSV → Nat → Except JSV JSV) :
    List JSV → Nat → Except JSV Bool
  | [], _ => Except.ok true
  | x :: xs, i => do
      let t ← predicate x i
      if t.truthy then everyWithIndex predicate xs (i + 1) else Except.ok false

/-- Insertion into a list sorted by the comparator-induced order. -/
def insertLe {γ : Type} (le : γ → γ → Bool) (x : γ) : List γ → List γ
  | [] => [x]
  | y :: ys => if le x y then x :: y :: ys else y :: insertLe le x ys

/-- A comparator-driven sort (the comparator is modelled as a pure
should-come-no-later relation; no claim depends on the native sort's
exact ordering behavior). -/
def sortListBy {γ : Type} (le : γ → γ → Bool) : List γ → List γ
  | [] => []
  | x :: xs => insertLe le x (sortListBy le xs)

/-- Flattening one level, as `Array.prototype.flat()` with depth 1. -/
def flattenOnce : List JSV → List JSV
  | [] => []
  | JSV.arr ys :: rest => ys ++ flattenOnce rest
  | x :: rest => x :: flattenOnce rest

/-- `Array.from(new Set(arr))`: first occurrences kept, in order. -/
def dedupFirst (seen : List JSV) : List JSV → List JSV
  | [] => []
  | x :: xs =>
      if seen.contains x then dedupFirst seen xs else x :: dedupFirst (x :: seen) xs

/-- The fields contributed by object-spreading a value: an object's own
fields; a primitive contributes none (spreading never throws; array and
string index fields are elided, nothing in the claims touches them). -/
def spreadFields : JSV → List (String × JSV)
  | .obj fs => fs
  | _ => []

/-- Right-biased field merge in JS spread order: left object's keys in
their order with overriding right values, then the right object's new
keys. -/
def mergeFields (fs1 fs2 : List (String × JSV)) : List (String × JSV) :=
  (fs1.map (fun p =>
    match List.lookup p.1 fs2 with
    | some v2 => (p.1, v2)
    | none => p))
  ++ fs2.filter (fun p => (List.lookup p.1 fs1).isNone)

/-- Shallow string conversion used by `join`; nested arrays and objects
are not recursed into (their exact conversion is irrelevant to every
claim). -/
def jsToShallowString : JSV → String
  | .num n => toString n
  | .str s => s
  | .bool b => if b then "true" else "false"
  | .null => ""
  | .undef => ""
  | .arr _ => ""
  | .obj _ => "[object Object]"

/-- `String.prototype.replace` with a string pattern replaces the first
occurrence only. -/
def replaceFirst (s searchValue replaceValue : String) : String :=
  match s.splitOn searchValue with
  | [] => s
  | [x] => x
  | x :: rest => x ++ replaceValue ++ String.intercalate searchValue rest

/-- The operation stored by `map`. -/
def mapOp (fn : JSV → Nat → Except JSV JSV) : JSV → Except JSV JSV := fun v => do
  let xs ← asArr v
  let ys ← mapWithIndex fn xs 0
  Except.ok (JSV.arr ys)

/-- The operation stored by `filter`. -/
def filterOp (predicate : JSV → Nat → Except JSV JSV) : JSV → Except JSV JSV :=
  fun v => do
    let xs ← asArr v
    let ys ← filterWithIndex predicate xs 0
    Except.ok (JSV.arr ys)

/-- The operation stored by `reduce`. -/
def reduceOp (fn : JSV → JSV → Nat → Except JSV JSV) (initial : JSV) :
    JSV → Except JSV JSV := fun v => do
  let xs ← asArr v
  reduceWithIndex fn initial xs 0

/-- The operation stored by `find`. -/
def findOp (predicate : JSV → Nat → Except JSV JSV) : JSV → Except JSV JSV :=
  fun v => do
    let xs ← asArr v
    findWithIndex predicate xs 0

/-- The operation stored by `some`. -/
def someOp (predicate : JSV → Nat → Except JSV JSV) : JSV → Except JSV JSV :=
  fun v => do
    let xs ← asArr v
    let b ← someWithIndex predicate xs 0
    Except.ok (JSV.bool b)

/-- The operation stored by `every`. -/
def everyOp (predicate : JSV → Nat → Except JSV JSV) : JSV → Except JSV JSV :=
  fun v => do
    let xs ← asArr v
    let b ← everyWithIndex predicate xs 0
    Except.ok (JSV.bool b)

/-- The operation stored by `take`: `slice(0, n)`. -/
def takeOp (n : Nat) : JSV → Except JSV JSV := fun v => do
  let xs ← asArr v
  Except.ok (JSV.arr (xs.take n))

/-- The operation stored by `skip`: `slice(n)`. -/
def skipOp (n : Nat) : JSV → Except JSV JSV := fun v => do
  let xs ← asArr v
  Except.ok (JSV.arr (xs.drop n))

/-- The operation stored by `sort`: `[...(arr)].sort(compareFn)`, a
sorted copy. -/
def sortOp (le : JSV → JSV → Bool) : JSV → Except JSV JSV := fun v => do
  let xs ← asArr v
  Except.ok (JSV.arr (sortListBy le xs))

/-- The operation stored by `reverse`: `[...(arr)].reverse()`, a
reversed copy. -/
def reverseOp : JSV → Except JSV JSV := fun v => do
  let xs ← asArr v
  Except.ok (JSV.arr xs.reverse)

/-- The operation stored by `flat`. -/
def flatOp : JSV → Except JSV JSV := fun v => do
  let xs ← asArr v
  Except.ok (JSV.arr (flattenOnce xs))

/-- The operation stored by `unique`. -/
def uniqueOp : JSV → Except JSV JSV := fun v => do
  let xs ← asArr v
  Except.ok (JSV.arr (dedupFirst [] xs))

/-- The operation stored by `pick`: the requested keys present in the
source, in request order. -/
def pickOp (ks : List String) : JSV → Except JSV JSV := fun v => do
  let fs ← asObj v
  Except.ok (JSV.obj (ks.filterMap (fun k =>
    match List.lookup k fs with
    | some x => some (k, x)
    | none => none)))

/-- The operation stored by `omit`: a spread copy of the object with
the given keys deleted. -/
def omitOp (ks : List String) : JSV → Except JSV JSV := fun v =>
  Except.ok (JSV.obj ((spreadFields v).filter (fun p => ! ks.contains p.1)))

/-- The operation stored by `keys`. -/
def keysOp : JSV → Except JSV JSV := fun v => do
  let fs ← asObj v
  Except.ok (JSV.arr (fs.map (fun p => JSV.str p.1)))

/-- The operation stored by `values`. -/
def valuesOp : JSV → Except JSV JSV := fun v => do
  let fs ← asObj v
  Except.ok (JSV.arr (fs.map (fun p => p.2)))

/-- The operation stored by `entries`. -/
def entriesOp : JSV → Except JSV JSV := fun v => do
  let fs ← asObj v
  Except.ok (JSV.arr (fs.map (fun p => JSV.arr [JSV.str p.1, p.2])))

/-- The operation stored by `merge`: `{ ...obj, ...other }`. -/
def mergeOp (other : JSV) : JSV → Except JSV JSV := fun v =>
  Except.ok (JSV.obj (mergeFields (spreadFields v) (spreadFields other)))

/-- The operation stored by `trim`. -/
def trimOp : JSV → Except JSV JSV := fun v => do
  let s ← asStr v
  Except.ok (JSV.str s.trim)

/-- The operation stored by `split` (string separators; regular
expressions are out of the modelled fragment). -/
def splitOp (separator : String) : JSV → Except JSV JSV := fun v => do
  let s ← asStr v
  Except.ok (JSV.arr ((s.splitOn separator).map JSV.str))

/-- The operation stored by `join`; an omitted separator defaults to a
comma as the native join does. -/
def joinOp (separator : Option String) : JSV → Except JSV JSV := fun v => do
  let xs ← asArr v
  Except.ok (JSV.str (String.intercalate (separator.getD ",")
    (xs.map jsToShallowString)))

/-- The operation stored by `replace`. -/
def replaceOp (searchValue replaceValue : String) : JSV → Except JSV JSV :=
  fun v => do
    let s ← asStr v
    Except.ok (JSV.str (replaceFirst s searchValue replaceValue))

/-- The operation stored by `toUpperCase`. -/
def toUpperCaseOp : JSV → Except JSV JSV := fun v => do
  let s ← asStr v
  Except.ok (JSV.str s.toUpper)

/-- The operation stored by `toLowerCase`. -/
def toLowerCaseOp : JSV → Except JSV JSV := fun v => do
  let s ← asStr v
  Except.ok (JSV.str s.toLower)

/-- The operation stored by `defaultTo`: `value ?? defaultValue`. -/
def defaultToOp (defaultValue : JSV) : JSV → Except JSV JSV := fun v =>
  Except.ok (match v with
    | JSV.null => defaultValue
    | JSV.undef => defaultValue
    | v => v)

/-- The operation stored by `isNil`: `value == null`. -/
def isNilOp : JSV → Except JSV JSV := fun v =>
  Except.ok (JSV.bool (match v with
    | JSV.null => true
    | JSV.undef => true
    | _ => false))

/-- The operation stored by `clone`: a shallow copy of an array or
object, the value itself otherwise (the copied contents are equal as
values; object identity is modelled separately for the frame claims). -/
def cloneOp : JSV → Except JSV JSV := fun v =>
  Except.ok (match v with
    | JSV.arr xs => JSV.arr xs
    | JSV.obj fs => JSV.obj fs
    | v => v)

/-- Mirrors `map`. -/
def Gluify.map (g : Gluify JSV JSV) (fn : JSV → Nat → Except JSV JSV) :
    Gluify JSV JSV :=
  g.createNext (g.operations ++ [Op.transform (mapOp fn)])

/-- Mirrors `filter`. -/
def Gluify.filter (g : Gluify JSV JSV) (predicate : JSV → Nat → Except JSV JSV) :
    Gluify JSV JSV :=
  g.createNext (g.operations ++ [Op.transform (filterOp predicate)])

/-- Mirrors `reduce`. -/
def Gluify.reduce (g : Gluify JSV JSV) (fn : JSV → JSV → Nat → Except JSV JSV)
    (initial : JSV) : Gluify JSV JSV :=
  g.createNext (g.operations ++ [Op.transform (reduceOp fn initial)])

/-- Mirrors `find`. -/
def Gluify.find (g : Gluify JSV JSV) (predicate : JSV → Nat → Except JSV JSV) :
    Gluify JSV JSV :=
  g.createNext (g.operations ++ [Op.transform (findOp predicate)])

/-- Mirrors `some`. -/
def Gluify.some (g : Gluify JSV JSV) (predicate : JSV → Nat → Except JSV JSV) :
    Gluify JSV JSV :=
  g.createNext (g.operations ++ [Op.transform (someOp predicate)])

/-- Mirrors `every`. -/
def Gluify.every (g : Gluify JSV JSV) (predicate : JSV → Nat → Except JSV JSV) :
    Gluify JSV JSV :=
  g.createNext (g.operations ++ [Op.transform (everyOp predicate)])

/-- Mirrors `take`. -/
def Gluify.take (g : Gluify JSV JSV) (n : Nat) : Gluify JSV JSV :=
  g.createNext (g.operations ++ [Op.transform (takeOp n)])

/-- Mirrors `skip`. -/
def Gluify.skip (g : Gluify JSV JSV) (n : Nat) : Gluify JSV JSV :=
  g.createNext (g.operations ++ [Op.transform (skipOp n)])

/-- Mirrors `sort`. -/
def Gluify.sort (g : Gluify JSV JSV) (le : JSV → JSV → Bool) : Gluify JSV JSV :=
  g.createNext (g.operations ++ [Op.transform (sortOp le)])

/-- Mirrors `reverse`. -/
def Gluify.reverse (g : Gluify JSV JSV) : Gluify JSV JSV :=
  g.createNext (g.operations ++ [Op.transform reverseOp])

/-- Mirrors `flat`. -/
def Gluify.flat (g : Gluify JSV JSV) : Gluify JSV JSV :=
  g.createNext (g.operations ++ [Op.transform flatOp])

/-- Mirrors `unique`. -/
def Gluify.unique (g : Gluify JSV JSV) : Gluify JSV JSV :=
  g.createNext (g.operations ++ [Op.transform uniqueOp])

/-- Mirrors `pick`. -/
def Gluify.pick (g : Gluify JSV JSV) (ks : List String) : Gluify JSV JSV :=
  g.createNext (g.operations ++ [Op.transform (pickOp ks)])

/-- Mirrors `omit`. -/
def Gluify.omit (g : Gluify JSV JSV) (ks : List String) : Gluify JSV JSV :=
  g.createNext (g.operations ++ [Op.transform (omitOp ks)])

/-- Mirrors `keys`. -/
def Gluify.keys (g : Gluify JSV JSV) : Gluify JSV JSV :=
  g.createNext (g.operations ++ [Op.transform keysOp])

/-- Mirrors `values`. -/
def Gluify.values (g : Gluify JSV JSV) : Gluify JSV JSV :=
  g.createNext (g.operations ++ [Op.transform valuesOp])

/-- Mirrors `entries`. -/
def Gluify.entries (g : Gluify JSV JSV) : Gluify JSV JSV :=
  g.createNext (g.operations ++ [Op.transform entriesOp])

/-- Mirrors `merge`. -/
def Gluify.merge (g : Gluify JSV JSV) (other : JSV) : Gluify JSV JSV :=
  g.createNext (g.operations ++ [Op.transform (mergeOp other)])

/-- Mirrors `trim`. -/
def Gluify.trim (g : Gluify JSV JSV) : Gluify JSV JSV :=
  g.createNext (g.operations ++ [Op.transform trimOp])

/-- Mirrors `split`. -/
def Gluify.split (g : Gluify JSV JSV) (separator : String) : Gluify JSV JSV :=
  g.createNext (g.operations ++ [Op.transform (splitOp separator)])

/-- Mirrors `join`. -/
def Gluify.join (g : Gluify JSV JSV) (separator : Option String) : Gluify JSV JSV :=
  g.createNext (g.operations ++ [Op.transform (joinOp separator)])

/-- Mirrors `replace`. -/
def Gluify.replace (g : Gluify JSV JSV) (searchValue replaceValue : String) :
    Gluify JSV JSV :=
  g.createNext (g.operations ++ [Op.transform (replaceOp searchValue replaceValue)])

/-- Mirrors `toUpperCase`. -/
def Gluify.toUpperCase (g : Gluify JSV JSV) : Gluify JSV JSV :=
  g.createNext (g.operations ++ [Op.transform toUpperCaseOp])

/-- Mirrors `toLowerCase`. -/
def Gluify.toLowerCase (g : Gluify JSV JSV) : Gluify JSV JSV :=
  g.createNext (g.operations ++ [Op.transform toLowerCaseOp])

/-- Mirrors `defaultTo`. -/
def Gluify.defaultTo (g : Gluify JSV JSV) (defaultValue : JSV) : Gluify JSV JSV :=
  g.createNext (g.operations ++ [Op.transform (defaultToOp defaultValue)])

/-- Mirrors `isNil`. -/
def Gluify.isNil (g : Gluify JSV JSV) : Gluify JSV JSV :=
  g.createNext (g.operations ++ [Op.transform isNilOp])

/-- Mirrors `clone`. -/
def Gluify.clone (g : Gluify JSV JSV) : Gluify JSV JSV :=
  g.createNext (g.operations ++ [Op.transform cloneOp])

/-- The builder contract: the derived pipeline keeps all seed fields of
the receiver and its step list is the receiver's list plus exactly the
given appended descriptor; the receiver itself is a value and is
untouched. -/
abbrev appendsOnly {V E : Type} (g g2 : Gluify V E) (op : Op V E) : Prop :=
  g2.initialValue = g.initialValue ∧ g2.isLazy = g.isLazy
    ∧ g2.lazyInitializer = g.lazyInitializer
    ∧ g2.operations = g.operations ++ [op]

/-- A store of JS array objects: contents by numeric identity plus the
next fresh identity; models object identity and in-place mutation for
the frame claims about the sort and reverse steps. -/
structure ArrStore (γ : Type) where
  contents : Nat → List γ
  nextRef : Nat

/-- Allocation of a fresh array object holding the given elements (an
array literal, such as a spread copy, allocates). -/
def allocArr {γ : Type} (st : ArrStore γ) (xs : List γ) : ArrStore γ × Nat :=
  (⟨fun r => if r = st.nextRef then xs else st.contents r, st.nextRef + 1⟩, st.nextRef)

/-- The spread copy `[...arr]`: reads the elements of the array object
and allocates a new array object holding them. -/
def spreadCopy {γ : Type} (st : ArrStore γ) (r : Nat) : ArrStore γ × Nat :=
  allocArr st (st.contents r)

/-- The native in-place `Array.prototype.sort`: overwrites the target
array object with its sorted contents and returns the same object. -/
def nativeSortInPlace {γ : Type} (le : γ → γ → Bool) (st : ArrStore γ) (r : Nat) :
    ArrStore γ × Nat :=
  (⟨fun x => if x = r then sortListBy le (st.contents r) else st.contents x,
    st.nextRef⟩, r)

/-- The native in-place `Array.prototype.reverse`. -/
def nativeReverseInPlace {γ : Type} (st : ArrStore γ) (r : Nat) : ArrStore γ × Nat :=
  (⟨fun x => if x = r then (st.contents r).reverse else st.contents x, st.nextRef⟩, r)

/-- The body of the `sort` step, `[...(arr)].sort(compareFn)`: spread
copy, then native in-place sort of the copy, returning the copy. -/
def sortStepOnStore {γ : Type} (le : γ → γ → Bool) (st : ArrStore γ) (r : Nat) :
    ArrStore γ × Nat :=
  let c := spreadCopy st r
  nativeSortInPlace le c.1 c.2

/-- The body of the `reverse` step, `[...(arr)].reverse()`. -/
def reverseStepOnStore {γ : Type} (st : ArrStore γ) (r : Nat) : ArrStore γ × Nat :=
  let c := spreadCopy st r
  nativeReverseInPlace c.1 c.2

theorem runOps_nil {V E : Type} (st : Except E V) : runOps [] st = st := rfl

theorem runOps_transform_ok {V E : Type} (f : V → Except E V) (rest : List (Op V E))
    (v : V) : runOps (Op.transform f :: rest) (Except.ok v) = runOps rest (f v) := rfl

theorem runOps_handler_ok {V E : Type} (h : E → Except E V) (rest : List (Op V E))
    (v : V) :
    runOps (Op.errorHandler h :: rest) (Except.ok v) = runOps rest (Except.ok v) := rfl

theorem runOps_transform_error {V E : Type} (f : V → Except E V) (rest : List (Op V E))
    (e : E) :
    runOps (Op.transform f :: rest) (Except.error e) = runOps rest (Except.error e) := rfl

theorem runOps_handler_error {V E : Type} (h : E → Except E V) (rest : List (Op V E))
    (e : E) : runOps (Op.errorHandler h :: rest) (Except.error e) = runOps rest (h e) := rfl

theorem runOps_append {V E : Type} (a b : List (Op V E)) (st : Except E V) :
    runOps (a ++ b) st = runOps b (runOps a st) := by
  induction a generalizing st with
  | nil => rfl
  | cons op rest ih =>
      cases op with
      | transform f =>
          cases st with
          | ok v => simpa [runOps] using ih (f v)
          | error e => simpa [runOps] using ih (Except.error e)
      | errorHandler h =>
          cases st with
          | ok v => simpa [runOps] using ih (Except.ok v)
          | error e => simpa [runOps] using ih (h e)

theorem pipeList_operations {V E : Type} (g : Gluify V E) (fs : List (V → Except E V)) :
    (pipeList g fs).operations = g.operations ++ fs.map Op.transform := by
  induction fs generalizing g with
  | nil => simp [pipeList]
  | cons f rest ih =>
      simp [pipeList, List.foldl_cons] at ih ⊢
      rw [show Gluify.pipe g f = g.createNext (g.operations ++ [Op.transform f]) from rfl]
      rw [ih]
      simp [Gluify.createNext]

theorem pipeList_seed {V E : Type} (g : Gluify V E) (fs : List (V → Except E V)) :
    seedResult (pipeList g fs) = seedResult g := by
  induction fs generalizing g with
  | nil => rfl
  | cons f rest ih =>
      simp [pipeList, List.foldl_cons] at ih ⊢
      rw [ih]
      rfl

theorem runOps_map_ok {V E : Type} (gs : List (V → V)) (s : V) :
    runOps (V := V) (E := E)
        (gs.map (fun gfun => Op.transform (fun v => Except.ok (gfun v)))) (Except.ok s)
      = Except.ok (gs.foldl (fun v gfun => gfun v) s) := by
  induction gs generalizing s with
  | nil => rfl
  | cons gfun rest ih => simpa [runOps] using ih (gfun s)

theorem runOpsTr_fst {V E : Type} (l : List (Op V E)) (st : Except E V) (i : Nat) :
    (runOpsTr l st i).1 = runOps l st := by
  induction l generalizing st i with
  | nil => rfl
  | cons op rest ih =>
      cases op with
      | transform f =>
          cases st with
          | ok v => simpa [runOpsTr, runOps] using ih (f v) (i + 1)
          | error e => simpa [runOpsTr, runOps] using ih (Except.error e) (i + 1)
      | errorHandler h =>
          cases st with
          | ok v => simpa [runOpsTr, runOps] using ih (Except.ok v) (i + 1)
          | error e => simpa [runOpsTr, runOps] using ih (h e) (i + 1)

theorem runOpsTr_mem_bounds {V E : Type} (l : List (Op V E)) :
    ∀ (st : Except E V) (i : Nat), ∀ j ∈ (runOpsTr l st i).2, i ≤ j ∧ j < i + l.length := by
  induction l with
  | nil => intro st i j hj; simp [runOpsTr] at hj
  | cons op rest ih =>
      intro st i j hj
      cases op with
      | transform f =>
          cases st with
          | ok v =>
              simp only [runOpsTr, List.mem_cons] at hj
              rcases hj with rfl | hj
              · simp only [List.length_cons]; omega
              · have := ih (f v) (i + 1) j hj
                simp only [List.length_cons]; omega
          | error e =>
              have := ih (Except.error e) (i + 1) j hj
              simp only [List.length_cons]; omega
      | errorHandler h =>
          cases st with
          | ok v =>
              have := ih (Except.ok v) (i + 1) j hj
              simp only [List.length_cons]; omega
          | error e =>
              simp only [runOpsTr, List.mem_cons] at hj
              rcases hj with rfl | hj
              · simp only [List.length_cons]; omega
              · have := ih (h e) (i + 1) j hj
                simp only [List.length_cons]; omega

theorem runOpsTr_append_snd {V E : Type} (a b : List (Op V E)) (st : Except E V)
    (i : Nat) :
    (runOpsTr (a ++ b) st i).2
      = (runOpsTr a st i).2 ++ (runOpsTr b (runOps a st) (i + a.length)).2 := by
  induction a generalizing st i with
  | nil => simp [runOpsTr, runOps]
  | cons op rest ih =>
      have harith : ∀ n : Nat, i + 1 + n = i + (n + 1) := by omega
      cases op with
      | transform f =>
          cases st with
          | ok v =>
              simp only [List.cons_append, runOpsTr, runOps, List.length_cons,
                List.append_eq]
              rw [ih (f v) (i + 1), harith rest.length]
          | error e =>
              simp only [List.cons_append, runOpsTr, runOps, List.length_cons,
                List.append_eq]
              rw [ih (Except.error e) (i + 1), harith rest.length]
      | errorHandler h =>
          cases st with
          | ok v =>
              simp only [List.cons_append, runOpsTr, runOps, List.length_cons,
                List.append_eq]
              rw [ih (Except.ok v) (i + 1), harith rest.length]
          | error e =>
              simp only [List.cons_append, runOpsTr, runOps, List.length_cons,
                List.append_eq]
              rw [ih (h e) (i + 1), harith rest.length]

theorem clean_trace_transform {V E : Type} (l : List (Op V E)) :
    ∀ (v : V) (i : Nat), runsClean l v = true →
      ∀ j ∈ (runOpsTr l (Except.ok v) i).2,
        ∃ f, l[j - i]? = some (Op.transform f) := by
  induction l with
  | nil => intro v i _ j hj; simp [runOpsTr] at hj
  | cons op rest ih =>
      intro v i hclean j hj
      cases op with
      | transform f =>
          cases hfv : f v with
          | ok w =>
              simp only [runsClean, hfv] at hclean
              simp only [runOpsTr, hfv, List.mem_cons] at hj
              rcases hj with rfl | hj
              · exact ⟨f, by simp⟩
              · have hb := runOpsTr_mem_bounds rest (Except.ok w) (i + 1) j hj
                obtain ⟨g, hg⟩ := ih w (i + 1) hclean j hj
                refine ⟨g, ?_⟩
                have : j - i = (j - (i + 1)) + 1 := by omega
                rw [this, List.getElem?_cons_succ]
                exact hg
          | error e => simp [runsClean, hfv] at hclean
      | errorHandler h =>
          simp only [runsClean] at hclean
          simp only [runOpsTr] at hj
          have hb := runOpsTr_mem_bounds rest (Except.ok v) (i + 1) j hj
          obtain ⟨g, hg⟩ := ih v (i + 1) hclean j hj
          refine ⟨g, ?_⟩
          have : j - i = (j - (i + 1)) + 1 := by omega
          rw [this, List.getElem?_cons_succ]
          exact hg

theorem clean_run_filter {V E : Type} (l : List (Op V E)) :
    ∀ v : V, runsClean l v = true →
      runOps l (Except.ok v)
        = runOps (l.filter (fun op => ! op.isErrorHandlerB)) (Except.ok v) := by
  induction l with
  | nil => intro v _; rfl
  | cons op rest ih =>
      intro v hclean
      cases op with
      | transform f =>
          cases hfv : f v with
          | ok w =>
              simp only [runsClean, hfv] at hclean
              simpa [runOps, List.filter, Op.isErrorHandlerB, hfv] using ih w hclean
          | error e => simp [runsClean, hfv] at hclean
      | errorHandler h =>
          simp only [runsClean] at hclean
          simpa [runOps, List.filter, Op.isErrorHandlerB] using ih v hclean

/-- C1: for a pipeline whose seed producer succeeds with value `s` and
whose transforms, appended in order via `pipe`, are the always-succeeding
liftings of `g1, g2, ..., gn`, `run` returns
`Except.ok (gn (... (g2 (g1 s))))`: the transforms are applied strictly
in append order to the seed value and that value is returned. -/
theorem run_applies_transforms_in_append_order {V E : Type} [Inhabited V]
    (f : Unit → Except E V) (s : V) (hf : f () = Except.ok s) (gs : List (V → V)) :
    Gluify.run
        (pipeList (gluify f)
          (gs.map (fun gfun => fun v => Except.ok (gfun v))))
      = Except.ok (gs.foldl (fun v gfun => gfun v) s) := by
  unfold Gluify.run
  rw [pipeList_seed, pipeList_operations]
  simp only [gluify, seedResult]
  rw [hf]
  simp only [List.map_map]
  simpa [Function.comp] using runOps_map_ok (E := E) gs s

/-- C1 witness: the spec's example pipeline, seed `5`, times two then
plus ten, runs to `20`. -/
theorem run_applies_transforms_in_append_order_witness :
    (fun _ : Unit => (Except.ok (5 : Nat) : Except Nat Nat)) () = Except.ok 5
    ∧ Gluify.run
        (pipeList (gluify (fun _ : Unit => (Except.ok (5 : Nat) : Except Nat Nat)))
          (([fun x => x * 2, fun x => x + 10] : List (Nat → Nat)).map
            (fun gfun => fun v => Except.ok (gfun v))))
      = Except.ok 20 :=
  ⟨rfl,
    run_applies_transforms_in_append_order
      (fun _ => Except.ok 5) 5 rfl [fun x => x * 2, fun x => x + 10]⟩

/-- C2: in the error state, transforms of a handler-free prefix are
skipped and not invoked; the first error-handler step after the failure
is invoked with the stored failure, and the walk then continues on the
remaining steps from the handler's outcome (so a failing handler's
failure replaces the stored one and the search continues only at later
handlers, never the same one and never from the start). In particular a
pipeline whose seed throws `e0`, then `catch` of a handler throwing
`e1`, then `catch` of a handler returning `v`, runs to `v` with both
handlers invoked (trace `[0, 1]`). -/
theorem first_handler_after_failure_handles {V E : Type} [Inhabited V] :
    (∀ (pre : List (Op V E)) (h : E → Except E V) (suf : List (Op V E)) (e : E) (i : Nat),
      (∀ op ∈ pre, op.isErrorHandlerB = false) →
      runOps (pre ++ Op.errorHandler h :: suf) (Except.error e) = runOps suf (h e)
        ∧ (runOpsTr (pre ++ Op.errorHandler h :: suf) (Except.error e) i).2
            = (i + pre.length) :: (runOpsTr suf (h e) (i + pre.length + 1)).2)
    ∧ ∀ (e0 e1 : E) (v : V),
        Gluify.runTrace
          (((gluify (fun _ => Except.error e0)).catchError
              (fun _ => Except.error e1)).catchError (fun _ => Except.ok v))
          = (Except.ok v, [0, 1]) := by
  constructor
  · intro pre h suf e i hpre
    induction pre generalizing i with
    | nil => simp [runOps, runOpsTr]
    | cons op rest ih =>
        cases op with
        | transform f =>
            have hrest : ∀ op ∈ rest, op.isErrorHandlerB = false := fun op hop =>
              hpre op (List.mem_cons_of_mem _ hop)
            have hih := ih hrest (i := i + 1)
            refine ⟨by simpa [runOps] using hih.1, ?_⟩
            have e1 : i + 1 + rest.length = i + (rest.length + 1) := by omega
            simp only [List.cons_append, runOpsTr, List.length_cons, List.append_eq]
            rw [hih.2, e1]
        | errorHandler h2 =>
            have : (Op.errorHandler h2).isErrorHandlerB = false :=
              hpre _ (List.mem_cons_self _ _)
            simp [Op.isErrorHandlerB] at this
  · intro e0 e1 v
    rfl

/-- C2 witness: the general part of the claim applied at a concrete
handler-free prefix, handler and failure. -/
theorem first_handler_after_failure_handles_witness :
    (∀ op ∈ ([Op.transform (fun v => Except.ok v)] : List (Op Nat Nat)),
      op.isErrorHandlerB = false)
    ∧ (runOps (([Op.transform (fun v => Except.ok v)] : List (Op Nat Nat))
          ++ Op.errorHandler (fun e => Except.ok e) :: []) (Except.error 5)
        = runOps ([] : List (Op Nat Nat)) ((fun e : Nat => Except.ok e) 5)
      ∧ (runOpsTr (([Op.transform (fun v => Except.ok v)] : List (Op Nat Nat))
            ++ Op.errorHandler (fun e => Except.ok e) :: []) (Except.error 5) 0).2
          = (0 + ([Op.transform (fun v => Except.ok v)] : List (Op Nat Nat)).length)
              :: (runOpsTr ([] : List (Op Nat Nat)) ((fun e : Nat => Except.ok e) 5)
                    (0 + ([Op.transform (fun v => Except.ok v)] :
                        List (Op Nat Nat)).length + 1)).2) :=
  ⟨by intro op hop; simp only [List.mem_singleton] at hop; subst hop; rfl,
    first_handler_after_failure_handles.1
      [Op.transform (fun v => Except.ok v)] (fun e => Except.ok e) [] 5 0
      (by intro op hop; simp only [List.mem_singleton] at hop; subst hop; rfl)⟩

/-- C3: a handler invoked in the errored state that returns `v`
fully clears the error state and the remaining steps run exactly as a
failure-free walk from `v`; an error state is propagated unchanged
through any remaining transform-only steps; and whenever the walk of a
pipeline ends in the error state, `run` surfaces exactly that failure
(no wrapping or enrichment) and returns no value. -/
theorem recovery_clears_error_and_failure_raised_unchanged {V E : Type} :
    (∀ (h : E → Except E V) (e : E) (v : V) (suf : List (Op V E)),
      h e = Except.ok v →
      runOps (Op.errorHandler h :: suf) (Except.error e) = runOps suf (Except.ok v))
    ∧ (∀ (fs : List (V → Except E V)) (e : E),
        runOps (fs.map Op.transform) (Except.error e) = Except.error e)
    ∧ ∀ (g : Gluify V E) (e : E),
        runOps g.operations (seedResult g) = Except.error e →
        Gluify.run g = Except.error e := by
  refine ⟨?_, ?_, ?_⟩
  · intro h e v suf hrec
    simp [runOps, hrec]
  · intro fs e
    induction fs with
    | nil => rfl
    | cons f rest ih => simpa [runOps] using ih
  · intro g e hend
    exact hend

/-- C3 witness: the recovery part applied at a concrete handler whose
return value `7` clears the failure `3`. -/
theorem recovery_clears_error_witness :
    (fun _ : Nat => (Except.ok (7 : Nat) : Except Nat Nat)) 3 = Except.ok 7
    ∧ runOps ((Op.errorHandler (fun _ => Except.ok 7) : Op Nat Nat) :: [])
            (Except.error 3)
        = runOps ([] : List (Op Nat Nat)) (Except.ok 7) :=
  ⟨rfl, recovery_clears_error_and_failure_raised_unchanged.1
    (fun _ => Except.ok 7) 3 7 [] rfl⟩

/-- C4: if a prefix of the step list walks error-free from `v` to `w`
and the next transform fails on `w`, then every error-handler step
invoked during the whole execution sits strictly after the failing
step: handlers appended before the failing step are never invoked for
that failure. -/
theorem handlers_before_failing_step_not_invoked {V E : Type}
    (pre : List (Op V E)) (f : V → Except E V) (suf : List (Op V E)) (v w : V) (e : E)
    (hclean : runsClean pre v = true)
    (hpre : runOps pre (Except.ok v) = Except.ok w)
    (hfail : f w = Except.error e) :
    ∀ j ∈ (runOpsTr (pre ++ Op.transform f :: suf) (Except.ok v) 0).2,
      (∃ h, (pre ++ Op.transform f :: suf)[j]? = some (Op.errorHandler h)) →
      pre.length < j := by
  intro j hj hhandler
  rw [runOpsTr_append_snd, hpre] at hj
  rcases List.mem_append.mp hj with hj | hj
  · have hb := runOpsTr_mem_bounds pre (Except.ok v) 0 j hj
    obtain ⟨ft, hft⟩ := clean_trace_transform pre v 0 hclean j hj
    obtain ⟨h, hh⟩ := hhandler
    rw [List.getElem?_append, if_pos (show j < pre.length by omega)] at hh
    simp only [Nat.sub_zero] at hft
    rw [hft] at hh
    simp at hh
  · simp only [Nat.zero_add, runOpsTr, hfail, List.mem_cons] at hj
    rcases hj with rfl | hj
    · obtain ⟨h, hh⟩ := hhandler
      rw [List.getElem?_append, if_neg (show ¬ pre.length < pre.length by omega)] at hh
      simp at hh
    · have hb := runOpsTr_mem_bounds suf (Except.error e) (pre.length + 1) j hj
      omega

/-- C4 witness: a pipeline with a handler before the failing transform
and one after it; only the later handler may be (and is) invoked. -/
theorem handlers_before_failing_step_not_invoked_witness :
    runsClean ([Op.errorHandler (fun _ => Except.ok (0 : Nat))] : List (Op Nat Nat)) 3 = true
    ∧ runOps ([Op.errorHandler (fun _ => Except.ok (0 : Nat))] : List (Op Nat Nat))
        (Except.ok 3) = Except.ok 3
    ∧ (fun _ : Nat => (Except.error (7 : Nat) : Except Nat Nat)) 3 = Except.error 7
    ∧ ∀ j ∈ (runOpsTr ([Op.errorHandler (fun _ => Except.ok (0 : Nat))]
          ++ Op.transform (fun _ => Except.error 7)
              :: [Op.errorHandler (fun e => Except.ok e)]) (Except.ok 3) 0).2,
        (∃ h, ([Op.errorHandler (fun _ => Except.ok (0 : Nat))]
            ++ Op.transform (fun _ => Except.error 7)
                :: [Op.errorHandler (fun e => Except.ok e)])[j]?
          = some (Op.errorHandler h)) →
        ([Op.errorHandler (fun _ => Except.ok (0 : Nat))] : List (Op Nat Nat)).length < j :=
  ⟨rfl, rfl, rfl,
    handlers_before_failing_step_not_invoked
      [Op.errorHandler (fun _ => Except.ok 0)] (fun _ => Except.error 7)
      [Op.errorHandler (fun e => Except.ok e)] 3 3 7 rfl rfl rfl⟩

/-- C5: for a pipeline whose seed succeeds and whose execution never
enters the error state, `run` returns the same result as running the
pipeline with every error-handler step removed, and no error-handler
step is ever invoked during the execution. -/
theorem handlers_inert_in_clean_run {V E : Type} (g : Gluify V E) (s : V)
    (hseed : seedResult g = Except.ok s)
    (hclean : runsClean g.operations s = true) :
    Gluify.run g = Gluify.run g.withoutHandlers
    ∧ ∀ j ∈ (Gluify.runTrace g).2, ∀ h, g.operations[j]? ≠ some (Op.errorHandler h) := by
  constructor
  · have hseed2 : seedResult g.withoutHandlers = seedResult g := rfl
    unfold Gluify.run
    rw [hseed2, hseed]
    exact clean_run_filter g.operations s hclean
  · intro j hj h hcontra
    unfold Gluify.runTrace at hj
    rw [hseed] at hj
    obtain ⟨ft, hft⟩ := clean_trace_transform g.operations s 0 hclean j hj
    simp only [Nat.sub_zero] at hft
    rw [hft] at hcontra
    simp at hcontra

/-- C5 witness: a clean pipeline carrying a handler and a transform;
its result equals the handler-free pipeline's result and the handler is
not invoked. -/
theorem handlers_inert_in_clean_run_witness :
    seedResult (⟨0, [Op.errorHandler (fun _ => Except.ok 1),
        Op.transform (fun v => Except.ok (v + 1))], false, none⟩ : Gluify Nat Nat)
      = Except.ok 0
    ∧ runsClean ([Op.errorHandler (fun _ => Except.ok 1),
        Op.transform (fun v : Nat => Except.ok (v + 1))] : List (Op Nat Nat)) 0 = true
    ∧ (Gluify.run (⟨0, [Op.errorHandler (fun _ => Except.ok 1),
          Op.transform (fun v => Except.ok (v + 1))], false, none⟩ : Gluify Nat Nat)
        = Gluify.run (Gluify.withoutHandlers ⟨0, [Op.errorHandler (fun _ => Except.ok 1),
            Op.transform (fun v => Except.ok (v + 1))], false, none⟩)
      ∧ ∀ j ∈ (Gluify.runTrace (⟨0, [Op.errorHandler (fun _ => Except.ok 1),
            Op.transform (fun v => Except.ok (v + 1))], false, none⟩ : Gluify Nat Nat)).2,
          ∀ h, ([Op.errorHandler (fun _ => Except.ok 1),
              Op.transform (fun v : Nat => Except.ok (v + 1))] : List (Op Nat Nat))[j]?
            ≠ some (Op.errorHandler h)) :=
  ⟨rfl, rfl,
    handlers_inert_in_clean_run
      ⟨0, [Op.errorHandler (fun _ => Except.ok 1),
        Op.transform (fun v => Except.ok (v + 1))], false, none⟩ 0 rfl rfl⟩

/-- C7: an execution of a pipeline built with a lazy producer depends
on the producer only through its single application `f ()` performed
before any step is walked (`run` factors through `runOps` applied to
that one outcome, so the producer is invoked exactly once per execution
and a raised failure enters the error state with no retained value);
in particular a pipeline whose producer throws, followed by
`catch(() => fallback)`, runs to the fallback. -/
theorem lazy_producer_invoked_once_at_start {V E : Type} [Inhabited V] :
    (∀ (f : Unit → Except E V) (iv : V) (ops : List (Op V E)),
      Gluify.run ⟨iv, ops, true, some f⟩ = runOps ops (f ()))
    ∧ ∀ (e : E) (fb : V),
        Gluify.run
            ((gluify (fun _ => Except.error e)).catchError (fun _ => Except.ok fb))
          = Except.ok fb := by
  constructor
  · intro f iv ops; rfl
  · intro e fb; rfl

/-- C8: a `tap(fn)` step never changes the value flowing through the
pipeline: when `fn` succeeds (whatever it returns) the walk continues
on the unchanged value, and when `fn` throws the walk continues exactly
as it would after a plain transform failing with the same error;
moreover `tap` appends exactly this operation. -/
theorem tap_preserves_value_and_fails_like_transform {V E W : Type}
    (fn : V → Except E W) (v : V) (rest : List (Op V E)) :
    (∀ w, fn v = Except.ok w →
      runOps (Op.transform (tapOp fn) :: rest) (Except.ok v) = runOps rest (Except.ok v))
    ∧ (∀ e, fn v = Except.error e →
        runOps (Op.transform (tapOp fn) :: rest) (Except.ok v)
          = runOps (Op.transform (fun _ => Except.error e) :: rest) (Except.ok v))
    ∧ ∀ g : Gluify V E, (g.tap fn).operations = g.operations ++ [Op.transform (tapOp fn)] := by
  refine ⟨?_, ?_, fun g => rfl⟩
  · intro w hfw; simp [runOps, tapOp, hfw]
  · intro e hfe; simp [runOps, tapOp, hfe]

/-- C8 witness: a concrete tap whose side-effect function succeeds with
an unrelated value leaves the pipeline value `5` unchanged. -/
theorem tap_preserves_value_witness :
    (fun _ : Nat => (Except.ok (99 : Nat) : Except Nat Nat)) 5 = Except.ok 99
    ∧ runOps (Op.transform (tapOp (fun _ : Nat => (Except.ok (99 : Nat) : Except Nat Nat)))
          :: []) (Except.ok 5)
        = runOps ([] : List (Op Nat Nat)) (Except.ok 5) :=
  ⟨rfl,
    (tap_preserves_value_and_fails_like_transform
      (fun _ => Except.ok 99) 5 []).1 99 rfl⟩

theorem resolved_map_v {E α : Type} (x : Except E α) : ResolvedSt (x.map JVal.v) := by
  intro jv h
  cases x with
  | ok a => exact ⟨a, by simpa [Except.map] using h.symm⟩
  | error e => simp [Except.map] at h

theorem resolved_error {E α : Type} (e : E) :
    ResolvedSt (Except.error e : Except E (JVal E α)) := by
  intro jv h
  simp at h

theorem runAsyncOps_congr {E α : Type} (pre : List (Op (JVal E α) E))
    (opA opB : JVal E α → Except E (JVal E α)) (suf : List (Op (JVal E α) E)) :
    ∀ st : Except E (JVal E α), (∀ a, opA (JVal.v a) = opB (JVal.v a)) → ResolvedSt st →
      runAsyncOps (pre ++ Op.transform opA :: suf) st
        = runAsyncOps (pre ++ Op.transform opB :: suf) st := by
  induction pre with
  | nil =>
      intro st hagree hres
      cases st with
      | ok jv =>
          obtain ⟨a, rfl⟩ := hres jv rfl
          simp only [List.nil_append, runAsyncOps]
          rw [hagree a]
      | error e => simp only [List.nil_append, runAsyncOps]
  | cons op rest ih =>
      intro st hagree hres
      cases op with
      | transform f =>
          cases st with
          | ok jv =>
              simp only [List.cons_append, runAsyncOps]
              exact ih _ hagree (resolved_map_v _)
          | error e =>
              simp only [List.cons_append, runAsyncOps]
              exact ih _ hagree (resolved_error e)
      | errorHandler h =>
          cases st with
          | ok jv =>
              simp only [List.cons_append, runAsyncOps]
              exact ih _ hagree hres
          | error e =>
              simp only [List.cons_append, runAsyncOps]
              exact ih _ hagree (resolved_map_v _)

/-- C9: under `runAsync` on a lazy pipeline, a step added with
`pipeAsync(fn)` behaves identically to the same step added with
`pipe(fn)` regardless of how the latter would behave on a raw promise
input, because the executor has already awaited every step's output and
the seed producer's result; and a pipeline mixing a synchronous
transform `g1`, a transform returning a deferred value of `g2`, and an
async-aware transform of `g3` runs to the direct composition
`g3 (g2 (g1 s))` of the underlying functions. -/
theorem pipeAsync_equals_pipe_under_runAsync {E α : Type} :
    (∀ (iv : JVal E α) (f0 : Unit → Except E (JVal E α))
       (pre suf : List (Op (JVal E α) E)) (fn : α → Except E (JVal E α))
       (onProm : Except E α → Except E (JVal E α)),
      Gluify.runAsync
          ⟨iv, pre ++ Op.transform (plainOpOf fn onProm) :: suf, true, some f0⟩
        = Gluify.runAsync
            ⟨iv, pre ++ Op.transform (pipeAsyncOp fn) :: suf, true, some f0⟩)
    ∧ ∀ (g1 g2 g3 : α → α) (onP1 onP2 : Except E α → Except E (JVal E α))
        (s : α) (iv : JVal E α),
        Gluify.runAsync
            ⟨iv,
              [Op.transform (plainOpOf (fun a => Except.ok (JVal.v (g1 a))) onP1),
               Op.transform
                 (plainOpOf (fun a => Except.ok (JVal.prom (Except.ok (g2 a)))) onP2),
               Op.transform (pipeAsyncOp (fun a => Except.ok (JVal.v (g3 a))))],
              true, some (fun _ => Except.ok (JVal.v s))⟩
          = Except.ok (g3 (g2 (g1 s))) := by
  constructor
  · intro iv f0 pre suf fn onProm
    unfold Gluify.runAsync
    have hagree : ∀ a, plainOpOf fn onProm (JVal.v a) = pipeAsyncOp fn (JVal.v a) :=
      fun a => rfl
    have hseed : asyncSeed
        (⟨iv, pre ++ Op.transform (plainOpOf fn onProm) :: suf, true, some f0⟩ :
          Gluify (JVal E α) E) = ((f0 ()).bind awaitJ).map JVal.v := rfl
    rw [show asyncSeed
        (⟨iv, pre ++ Op.transform (pipeAsyncOp fn) :: suf, true, some f0⟩ :
          Gluify (JVal E α) E) = ((f0 ()).bind awaitJ).map JVal.v from rfl, hseed]
    rw [runAsyncOps_congr pre (plainOpOf fn onProm) (pipeAsyncOp fn) suf
      (((f0 ()).bind awaitJ).map JVal.v) hagree (resolved_map_v _)]
  · intro g1 g2 g3 onP1 onP2 s iv
    rfl

/-- C6: every builder operation — `pipe`, `pipeAsync`, `tap`, `catch`,
`recover`, `when`, and each convenience transform of the catalog — is
pure with respect to pipeline state: it returns a new pipeline whose
seed fields equal the receiver's and whose step list is the receiver's
list plus exactly one appended descriptor that stores (never applies)
the caller-supplied functions; and a freshly built `gluify f` pipeline
stores `f` itself as the uninvoked lazy producer with an empty step
list, so no caller-supplied function is invoked before an execution
entry point runs. -/
theorem builders_pure_and_append_one_step {V E W E2 α : Type} [Inhabited V]
    (g : Gluify V E) (fn : V → Except E V) (fnT : V → Except E W)
    (handler : E → Except E V) (fb : V)
    (predicate : V → Except E Bool) (fnW : V → Except E V)
    (ga : Gluify (JVal E2 α) E2) (fnA : α → Except E2 (JVal E2 α))
    (gj : Gluify JSV JSV) (fnM : JSV → Nat → Except JSV JSV)
    (predJ : JSV → Nat → Except JSV JSV) (fnR : JSV → JSV → Nat → Except JSV JSV)
    (initial other defaultValue : JSV) (n : Nat) (le : JSV → JSV → Bool)
    (ks : List String) (separator searchValue replaceValue : String)
    (sepO : Option String) (f0 : Unit → Except E V) :
    appendsOnly g (g.pipe fn) (Op.transform fn)
    ∧ appendsOnly ga (ga.pipeAsync fnA) (Op.transform (pipeAsyncOp fnA))
    ∧ appendsOnly g (g.tap fnT) (Op.transform (tapOp fnT))
    ∧ appendsOnly g (g.catchError handler) (Op.errorHandler handler)
    ∧ appendsOnly g (g.recover fb) (Op.errorHandler (fun _ => Except.ok fb))
    ∧ appendsOnly g (g.when predicate fnW) (Op.transform (whenOp predicate fnW))
    ∧ appendsOnly gj (gj.map fnM) (Op.transform (mapOp fnM))
    ∧ appendsOnly gj (gj.filter predJ) (Op.transform (filterOp predJ))
    ∧ appendsOnly gj (gj.reduce fnR initial) (Op.transform (reduceOp fnR initial))
    ∧ appendsOnly gj (gj.find predJ) (Op.transform (findOp predJ))
    ∧ appendsOnly gj (gj.some predJ) (Op.transform (someOp predJ))
    ∧ appendsOnly gj (gj.every predJ) (Op.transform (everyOp predJ))
    ∧ appendsOnly gj (gj.take n) (Op.transform (takeOp n))
    ∧ appendsOnly gj (gj.skip n) (Op.transform (skipOp n))
    ∧ appendsOnly gj (gj.sort le) (Op.transform (sortOp le))
    ∧ appendsOnly gj gj.reverse (Op.transform reverseOp)
    ∧ appendsOnly gj gj.flat (Op.transform flatOp)
    ∧ appendsOnly gj gj.unique (Op.transform uniqueOp)
    ∧ appendsOnly gj (gj.pick ks) (Op.transform (pickOp ks))
    ∧ appendsOnly gj (gj.omit ks) (Op.transform (omitOp ks))
    ∧ appendsOnly gj gj.keys (Op.transform keysOp)
    ∧ appendsOnly gj gj.values (Op.transform valuesOp)
    ∧ appendsOnly gj gj.entries (Op.transform entriesOp)
    ∧ appendsOnly gj (gj.merge other) (Op.transform (mergeOp other))
    ∧ appendsOnly gj gj.trim (Op.transform trimOp)
    ∧ appendsOnly gj (gj.split separator) (Op.transform (splitOp separator))
    ∧ appendsOnly gj (gj.join sepO) (Op.transform (joinOp sepO))
    ∧ appendsOnly gj (gj.replace searchValue replaceValue)
        (Op.transform (replaceOp searchValue replaceValue))
    ∧ appendsOnly gj gj.toUpperCase (Op.transform toUpperCaseOp)
    ∧ appendsOnly gj gj.toLowerCase (Op.transform toLowerCaseOp)
    ∧ appendsOnly gj (gj.defaultTo defaultValue)
        (Op.transform (defaultToOp defaultValue))
    ∧ appendsOnly gj gj.isNil (Op.transform isNilOp)
    ∧ appendsOnly gj gj.clone (Op.transform cloneOp)
    ∧ ((gluify f0 : Gluify V E).operations = []
        ∧ (gluify f0 : Gluify V E).isLazy = true
        ∧ (gluify f0 : Gluify V E).lazyInitializer = some f0) :=
  ⟨⟨rfl, rfl, rfl, rfl⟩, ⟨rfl, rfl, rfl, rfl⟩, ⟨rfl, rfl, rfl, rfl⟩,
    ⟨rfl, rfl, rfl, rfl⟩, ⟨rfl, rfl, rfl, rfl⟩, ⟨rfl, rfl, rfl, rfl⟩,
    ⟨rfl, rfl, rfl, rfl⟩, ⟨rfl, rfl, rfl, rfl⟩, ⟨rfl, rfl, rfl, rfl⟩,
    ⟨rfl, rfl, rfl, rfl⟩, ⟨rfl, rfl, rfl, rfl⟩, ⟨rfl, rfl, rfl, rfl⟩,
    ⟨rfl, rfl, rfl, rfl⟩, ⟨rfl, rfl, rfl, rfl⟩, ⟨rfl, rfl, rfl, rfl⟩,
    ⟨rfl, rfl, rfl, rfl⟩, ⟨rfl, rfl, rfl, rfl⟩, ⟨rfl, rfl, rfl, rfl⟩,
    ⟨rfl, rfl, rfl, rfl⟩, ⟨rfl, rfl, rfl, rfl⟩, ⟨rfl, rfl, rfl, rfl⟩,
    ⟨rfl, rfl, rfl, rfl⟩, ⟨rfl, rfl, rfl, rfl⟩, ⟨rfl, rfl, rfl, rfl⟩,
    ⟨rfl, rfl, rfl, rfl⟩, ⟨rfl, rfl, rfl, rfl⟩, ⟨rfl, rfl, rfl, rfl⟩,
    ⟨rfl, rfl, rfl, rfl⟩, ⟨rfl, rfl, rfl, rfl⟩, ⟨rfl, rfl, rfl, rfl⟩,
    ⟨rfl, rfl, rfl, rfl⟩, ⟨rfl, rfl, rfl, rfl⟩, ⟨rfl, rfl, rfl, rfl⟩,
    ⟨rfl, rfl, rfl⟩⟩

/-- C10: for a valid array object, the sort step and the reverse step
each return a freshly allocated array object (a different object from
the input), while the input array object's contents — elements and
their order — are unchanged, even though the underlying native sort and
reverse mutate their target in place (they mutate only the spread
copy). -/
theorem sort_and_reverse_return_fresh_array {γ : Type} (le : γ → γ → Bool)
    (st : ArrStore γ) (r : Nat) (hr : r < st.nextRef) :
    ((sortStepOnStore le st r).2 = st.nextRef
      ∧ (sortStepOnStore le st r).2 ≠ r
      ∧ (sortStepOnStore le st r).1.contents r = st.contents r
      ∧ (sortStepOnStore le st r).1.contents (sortStepOnStore le st r).2
          = sortListBy le (st.contents r))
    ∧ ((reverseStepOnStore st r).2 = st.nextRef
      ∧ (reverseStepOnStore st r).2 ≠ r
      ∧ (reverseStepOnStore st r).1.contents r = st.contents r
      ∧ (reverseStepOnStore st r).1.contents (reverseStepOnStore st r).2
          = (st.contents r).reverse) := by
  have hne : r ≠ st.nextRef := by omega
  constructor
  · refine ⟨rfl, ?_, ?_, ?_⟩
    · simp only [sortStepOnStore, spreadCopy, allocArr, nativeSortInPlace]
      omega
    · simp [sortStepOnStore, spreadCopy, allocArr, nativeSortInPlace, hne]
    · simp [sortStepOnStore, spreadCopy, allocArr, nativeSortInPlace]
  · refine ⟨rfl, ?_, ?_, ?_⟩
    · simp only [reverseStepOnStore, spreadCopy, allocArr, nativeReverseInPlace]
      omega
    · simp [reverseStepOnStore, spreadCopy, allocArr, nativeReverseInPlace, hne]
    · simp [reverseStepOnStore, spreadCopy, allocArr, nativeReverseInPlace]

/-- C10 witness: the claim applied to a concrete store holding one
array object `[3, 1, 2]`. -/
theorem sort_and_reverse_return_fresh_array_witness :
    (0 : Nat) < (⟨fun _ => [3, 1, 2], 1⟩ : ArrStore Nat).nextRef
    ∧ (((sortStepOnStore (fun a b => a ≤ b) ⟨fun _ => [3, 1, 2], 1⟩ 0).2
          = (⟨fun _ => [3, 1, 2], 1⟩ : ArrStore Nat).nextRef
        ∧ (sortStepOnStore (fun a b => a ≤ b) ⟨fun _ => [3, 1, 2], 1⟩ 0).2 ≠ 0
        ∧ (sortStepOnStore (fun a b => a ≤ b) ⟨fun _ => [3, 1, 2], 1⟩ 0).1.contents 0
            = (⟨fun _ => [3, 1, 2], 1⟩ : ArrStore Nat).contents 0
        ∧ (sortStepOnStore (fun a b => a ≤ b) ⟨fun _ => [3, 1, 2], 1⟩ 0).1.contents
              (sortStepOnStore (fun a b => a ≤ b) ⟨fun _ => [3, 1, 2], 1⟩ 0).2
            = sortListBy (fun a b => a ≤ b)
                ((⟨fun _ => [3, 1, 2], 1⟩ : ArrStore Nat).contents 0))
      ∧ ((reverseStepOnStore (⟨fun _ => [3, 1, 2], 1⟩ : ArrStore Nat) 0).2
          = (⟨fun _ => [3, 1, 2], 1⟩ : ArrStore Nat).nextRef
        ∧ (reverseStepOnStore (⟨fun _ => [3, 1, 2], 1⟩ : ArrStore Nat) 0).2 ≠ 0
        ∧ (reverseStepOnStore (⟨fun _ => [3, 1, 2], 1⟩ : ArrStore Nat) 0).1.contents 0
            = (⟨fun _ => [3, 1, 2], 1⟩ : ArrStore Nat).contents 0
        ∧ (reverseStepOnStore (⟨fun _ => [3, 1, 2], 1⟩ : ArrStore Nat) 0).1.contents
              (reverseStepOnStore (⟨fun _ => [3, 1, 2], 1⟩ : ArrStore Nat) 0).2
            = ((⟨fun _ => [3, 1, 2], 1⟩ : ArrStore Nat).contents 0).reverse)) :=
  ⟨by decide,
    sort_and_reverse_return_fresh_array (fun a b => decide (a ≤ b))
      ⟨fun _ => [3, 1, 2], 1⟩ 0 (by decide)⟩
